import Mathlib

set_option linter.unusedVariables false

/-!
Verification of the replay-memory and trainer control logic of an
Atari Double-DQN training harness (`trainers.py`).

The embedding models:

* `ReplayMemory` — a fixed-capacity ring buffer of transitions stored as
  five parallel arrays (`states`, `next_states`, `actions`, `rewards`,
  `terminal`), with a circular write pointer `ptr` and a saturating fill
  counter `filled` (`ReplayMemory.add_sample`, `ReplayMemory.get_batch`).
* pixel quantization — states arrive as rationals in `[0,1]`, are scaled
  by 255 and cast to unsigned 8-bit on insertion, and divided by 255 on
  retrieval.
* the trainer's metric reporting, checkpoint save/load, and the
  best-checkpoint update rule of the epoch loop.

Machine integers are modelled as `Nat` with explicit `% 256` where the
numpy `uint8` arrays wrap; Python floats are modelled as `ℚ`; the fallible
paths (`assert`, `ZeroDivisionError`, missing files) return `Option`.
-/

/-- A transition as passed to `ReplayMemory.add_sample`: normalized pixel
values in `[0,1]` (flattened frame stack), an action index, a reward and a
terminal flag. -/
structure Transition where
  state : List ℚ
  action : ℕ
  next_state : List ℚ
  reward : ℚ
  done : Bool
  deriving DecidableEq

/-- `(x * 255).astype(np.uint8)` on one pixel: scale by 255, truncate to an
integer, and cast into an unsigned byte (`% 256`).  On the nonnegative
inputs the code feeds it (normalized pixels), C truncation toward zero
coincides with `Int.floor`. -/
def pixel_to_uint8 (x : ℚ) : ℕ :=
  (Int.toNat ⌊x * 255⌋) % 256

/-- `get_batch` rescales a stored byte back to floating point:
`stored / 255.0`. -/
def uint8_to_float (n : ℕ) : ℚ :=
  (n : ℚ) / 255

/-- The replay memory: structure-of-arrays ring buffer.  Each backing
array of the numpy model is a total function from indices; only indices
`< mem_size` are ever read or written. -/
structure ReplayMemory where
  mem_size : ℕ
  ptr : ℕ
  filled : ℕ
  states : ℕ → List ℕ
  next_states : ℕ → List ℕ
  actions : ℕ → ℕ
  rewards : ℕ → ℚ
  terminal : ℕ → ℕ

/-- `ReplayMemory.__init__`: zero-filled backing arrays, `ptr = 0`,
`filled = 0`.  `stack_size` frames of 84×84 pixels are flattened into one
list per slot. -/
def ReplayMemory.init (memory_size : ℕ) (stack_size : ℕ := 4) : ReplayMemory :=
  { mem_size := memory_size
    ptr := 0
    filled := 0
    states := fun _ => List.replicate (stack_size * 84 * 84) 0
    next_states := fun _ => List.replicate (stack_size * 84 * 84) 0
    actions := fun _ => 0
    rewards := fun _ => 0
    terminal := fun _ => 0 }

/-- `ReplayMemory._insert_transform`: scale the frame stacks by 255 and
cast to `uint8`, and cast `done` to an integer `0/1`.  Action and reward
pass through. -/
def ReplayMemory.insert_transform (t : Transition) :
    List ℕ × ℕ × List ℕ × ℚ × ℕ :=
  (t.state.map pixel_to_uint8, t.action, t.next_state.map pixel_to_uint8,
   t.reward, if t.done then 1 else 0)

/-- `ReplayMemory.add_sample`: write the transformed transition into all
five parallel arrays at index `ptr` (the `uint8` action array wraps the
action modulo 256), then advance `ptr` circularly and increment `filled`
up to the ceiling `mem_size`. -/
def ReplayMemory.add_sample (m : ReplayMemory) (t : Transition) : ReplayMemory :=
  let tr := ReplayMemory.insert_transform t
  { m with
    states := fun j => if j = m.ptr then tr.1 else m.states j
    next_states := fun j => if j = m.ptr then tr.2.2.1 else m.next_states j
    actions := fun j => if j = m.ptr then tr.2.1 % 256 else m.actions j
    rewards := fun j => if j = m.ptr then tr.2.2.2.1 else m.rewards j
    terminal := fun j => if j = m.ptr then tr.2.2.2.2 else m.terminal j
    ptr := (m.ptr + 1) % m.mem_size
    filled := min (m.filled + 1) m.mem_size }

/-- A sequence of `add_sample` calls, oldest first. -/
def ReplayMemory.add_list (m : ReplayMemory) (ts : List Transition) : ReplayMemory :=
  ts.foldl ReplayMemory.add_sample m

theorem ReplayMemory.add_list_nil (m : ReplayMemory) :
    m.add_list [] = m := rfl

theorem ReplayMemory.add_list_cons (m : ReplayMemory) (t : Transition)
    (ts : List Transition) :
    m.add_list (t :: ts) = (m.add_sample t).add_list ts := rfl

theorem ReplayMemory.mem_size_add_sample (m : ReplayMemory) (t : Transition) :
    (m.add_sample t).mem_size = m.mem_size := rfl

theorem ReplayMemory.mem_size_add_list (m : ReplayMemory) (ts : List Transition) :
    (m.add_list ts).mem_size = m.mem_size := by
  induction ts generalizing m with
  | nil => rfl
  | cons t ts ih => rw [ReplayMemory.add_list_cons, ih, ReplayMemory.mem_size_add_sample]

/-- Invariant transport: starting from a buffer of capacity `M > 0` whose
counters encode "`n` samples inserted so far", inserting `ts` yields the
counters for `n + ts.length` samples. -/
theorem ReplayMemory.ring_invariant_aux (M : ℕ) (hM : 0 < M)
    (ts : List Transition) :
    ∀ (m : ReplayMemory) (n : ℕ), m.mem_size = M → m.ptr = n % M →
      m.filled = min n M →
      (m.add_list ts).ptr = (n + ts.length) % M ∧
      (m.add_list ts).filled = min (n + ts.length) M := by
  induction ts with
  | nil =>
    intro m n hsize hptr hfill
    simpa [ReplayMemory.add_list] using ⟨hptr, hfill⟩
  | cons t ts ih =>
    intro m n hsize hptr hfill
    rw [ReplayMemory.add_list_cons]
    have h₁ : (m.add_sample t).mem_size = M := by
      rw [ReplayMemory.mem_size_add_sample]; exact hsize
    have h₂ : (m.add_sample t).ptr = (n + 1) % M := by
      show (m.ptr + 1) % m.mem_size = (n + 1) % M
      rw [hsize, hptr, Nat.mod_add_mod]
    have h₃ : (m.add_sample t).filled = min (n + 1) M := by
      show min (m.filled + 1) m.mem_size = min (n + 1) M
      rw [hsize, hfill]
      omega
    have := ih (m.add_sample t) (n + 1) h₁ h₂ h₃
    simpa [List.length_cons, Nat.add_assoc, Nat.add_comm 1 ts.length] using this

/-- C1.  For every sequence of `N` calls to `ReplayMemory.add_sample` on a
buffer constructed with capacity `mem_size = M` (`M > 0`), after the calls
the buffer satisfies `filled = min(N, M)` and `ptr = N mod M`. -/
theorem replay_memory_ring_invariant (M : ℕ) (hM : 0 < M)
    (stack_size : ℕ) (ts : List Transition) :
    ((ReplayMemory.init M stack_size).add_list ts).filled = min ts.length M ∧
    ((ReplayMemory.init M stack_size).add_list ts).ptr = ts.length % M := by
  have h := ReplayMemory.ring_invariant_aux M hM ts (ReplayMemory.init M stack_size) 0
    rfl (by simp [ReplayMemory.init]) (by simp [ReplayMemory.init])
  simp only [Nat.zero_add] at h
  exact ⟨h.2, h.1⟩

/-- C1 witness: capacity 3, five insertions, so `filled = 3` and
`ptr = 5 % 3 = 2`. -/
theorem replay_memory_ring_invariant_witness :
    ((ReplayMemory.init 3 1).add_list
        (List.replicate 5 ⟨[], 0, [], 0, false⟩)).filled = min 5 3 ∧
    ((ReplayMemory.init 3 1).add_list
        (List.replicate 5 ⟨[], 0, [], 0, false⟩)).ptr = 5 % 3 := by
  have h := replay_memory_ring_invariant 3 (by decide) 1
    (List.replicate 5 ⟨[], 0, [], 0, false⟩)
  simpa using h

/-!
### Batch sampling (`np.random.choice(filled, size=batch_size, replace=False)`)

The numpy call draws `batch_size` indices without replacement from the
pool `[0, filled)`.  We model the randomness by an arbitrary stream of
draws `rand : ℕ → ℕ`: at each step one element of the remaining pool is
picked (at position `rand k % pool.length`) and removed from the pool, so
any without-replacement outcome corresponds to some stream.
-/

/-- Draw `b` elements without replacement from `pool`, the draws driven by
the stream `rand`. -/
def sample_without_replacement (rand : ℕ → ℕ) : List ℕ → ℕ → List ℕ
  | _, 0 => []
  | pool, b + 1 =>
    if pool.length = 0 then []
    else
      let x := pool.getD (rand b % pool.length) 0
      x :: sample_without_replacement rand (pool.erase x) b

theorem sample_without_replacement_subset (rand : ℕ → ℕ) :
    ∀ (b : ℕ) (pool : List ℕ), ∀ y ∈ sample_without_replacement rand pool b, y ∈ pool := by
  intro b
  induction b with
  | zero => intro pool y hy; simp [sample_without_replacement] at hy
  | succ b ih =>
    intro pool y hy
    rw [sample_without_replacement] at hy
    by_cases hlen : pool.length = 0
    · simp [hlen] at hy
    · rw [if_neg hlen] at hy
      have hpos : 0 < pool.length := Nat.pos_of_ne_zero hlen
      have hmod : rand b % pool.length < pool.length := Nat.mod_lt _ hpos
      have hx : pool.getD (rand b % pool.length) 0 ∈ pool := by
        rw [List.getD_eq_getElem _ _ hmod]
        exact List.getElem_mem hmod
      rcases List.mem_cons.mp hy with h | h
      · exact h ▸ hx
      · exact List.erase_subset _ _ (ih _ y h)

theorem sample_without_replacement_length (rand : ℕ → ℕ) :
    ∀ (b : ℕ) (pool : List ℕ), b ≤ pool.length →
      (sample_without_replacement rand pool b).length = b := by
  intro b
  induction b with
  | zero => intro pool _; rfl
  | succ b ih =>
    intro pool hb
    have hlen : pool.length ≠ 0 := by omega
    rw [sample_without_replacement, if_neg hlen]
    have hpos : 0 < pool.length := Nat.pos_of_ne_zero hlen
    have hmod : rand b % pool.length < pool.length := Nat.mod_lt _ hpos
    have hx : pool.getD (rand b % pool.length) 0 ∈ pool := by
      rw [List.getD_eq_getElem _ _ hmod]
      exact List.getElem_mem hmod
    have herase : (pool.erase (pool.getD (rand b % pool.length) 0)).length
        = pool.length - 1 := List.length_erase_of_mem hx
    rw [List.length_cons, ih _ (by omega)]

theorem sample_without_replacement_nodup (rand : ℕ → ℕ) :
    ∀ (b : ℕ) (pool : List ℕ), pool.Nodup →
      (sample_without_replacement rand pool b).Nodup := by
  intro b
  induction b with
  | zero => intro pool _; exact List.nodup_nil
  | succ b ih =>
    intro pool hnd
    rw [sample_without_replacement]
    by_cases hlen : pool.length = 0
    · simp [hlen]
    · rw [if_neg hlen]
      refine List.nodup_cons.mpr ⟨?_, ih _ (hnd.erase _)⟩
      intro hmem
      exact hnd.not_mem_erase (sample_without_replacement_subset rand b _ _ hmem)

/-- The value returned by `get_batch`: five parallel arrays (tensors in
the source; the `.float()` / `.long()` casts are exact on the stored
values). -/
structure Batch where
  states : List (List ℚ)
  actions : List ℕ
  next_states : List (List ℚ)
  rewards : List ℚ
  dones : List ℚ

/-- `ReplayMemory.get_batch`: the failed `assert batch_size < self.filled`
(an `InsufficientSamplesError`) is modelled by `none`; otherwise draw
`batch_size` indices without replacement from `[0, filled)` and gather the
five parallel arrays, rescaling stored image bytes by `1/255`. -/
def ReplayMemory.get_batch (m : ReplayMemory) (rand : ℕ → ℕ) (batch_size : ℕ) :
    Option Batch :=
  if batch_size < m.filled then
    let idx := sample_without_replacement rand (List.range m.filled) batch_size
    some
      { states := idx.map fun i => (m.states i).map uint8_to_float
        actions := idx.map m.actions
        next_states := idx.map fun i => (m.next_states i).map uint8_to_float
        rewards := idx.map m.rewards
        dones := idx.map fun i => (m.terminal i : ℚ) }
  else none

/-- C3.  For every buffer state and every `batch_size` `b` with
`b < filled`, `get_batch b` returns five parallel arrays of length exactly
`b`, gathered at `b` pairwise-distinct indices all drawn from
`[0, filled)`. -/
theorem get_batch_spec (m : ReplayMemory) (rand : ℕ → ℕ) (b : ℕ)
    (h : b < m.filled) :
    ∃ batch : Batch, m.get_batch rand b = some batch ∧
      ∃ idx : List ℕ,
        idx = sample_without_replacement rand (List.range m.filled) b ∧
        idx.length = b ∧ idx.Nodup ∧ (∀ i ∈ idx, i < m.filled) ∧
        batch.states = (idx.map fun i => (m.states i).map uint8_to_float) ∧
        batch.actions = idx.map m.actions ∧
        batch.next_states =
          (idx.map fun i => (m.next_states i).map uint8_to_float) ∧
        batch.rewards = idx.map m.rewards ∧
        batch.dones = (idx.map fun i => (m.terminal i : ℚ)) ∧
        batch.states.length = b ∧ batch.actions.length = b ∧
        batch.next_states.length = b ∧ batch.rewards.length = b ∧
        batch.dones.length = b := by
  set idx := sample_without_replacement rand (List.range m.filled) b with hidx
  have hlen : idx.length = b := by
    rw [hidx]
    exact sample_without_replacement_length rand b _ (by simpa using Nat.le_of_lt h)
  have hnd : idx.Nodup := by
    rw [hidx]
    exact sample_without_replacement_nodup rand b _ (List.nodup_range _)
  have hmem : ∀ i ∈ idx, i < m.filled := by
    intro i hi
    have := sample_without_replacement_subset rand b (List.range m.filled) i (hidx ▸ hi)
    exact List.mem_range.mp this
  refine ⟨{ states := idx.map fun i => (m.states i).map uint8_to_float
            actions := idx.map m.actions
            next_states := idx.map fun i => (m.next_states i).map uint8_to_float
            rewards := idx.map m.rewards
            dones := idx.map fun i => (m.terminal i : ℚ) },
    ?_, idx, rfl, hlen, hnd, hmem, rfl, rfl, rfl, rfl, rfl,
    by simpa using hlen, by simpa using hlen, by simpa using hlen,
    by simpa using hlen, by simpa using hlen⟩
  rw [ReplayMemory.get_batch, if_pos h]

/-- C3 witness: a capacity-3 buffer holding two samples, batch size 1. -/
theorem get_batch_spec_witness :
    ∃ batch : Batch,
      (((ReplayMemory.init 3 0).add_list
          [⟨[], 0, [], 0, false⟩, ⟨[], 1, [], 1, true⟩]).get_batch id 1)
        = some batch ∧
      ∃ idx : List ℕ,
        idx = sample_without_replacement id
          (List.range ((ReplayMemory.init 3 0).add_list
            [⟨[], 0, [], 0, false⟩, ⟨[], 1, [], 1, true⟩]).filled) 1 ∧
        idx.length = 1 ∧ idx.Nodup ∧
        (∀ i ∈ idx, i < ((ReplayMemory.init 3 0).add_list
            [⟨[], 0, [], 0, false⟩, ⟨[], 1, [], 1, true⟩]).filled) ∧
        batch.states = (idx.map fun i =>
          ((((ReplayMemory.init 3 0).add_list
            [⟨[], 0, [], 0, false⟩, ⟨[], 1, [], 1, true⟩]).states i).map
              uint8_to_float)) ∧
        batch.actions = idx.map ((ReplayMemory.init 3 0).add_list
          [⟨[], 0, [], 0, false⟩, ⟨[], 1, [], 1, true⟩]).actions ∧
        batch.next_states = (idx.map fun i =>
          ((((ReplayMemory.init 3 0).add_list
            [⟨[], 0, [], 0, false⟩, ⟨[], 1, [], 1, true⟩]).next_states i).map
              uint8_to_float)) ∧
        batch.rewards = idx.map ((ReplayMemory.init 3 0).add_list
          [⟨[], 0, [], 0, false⟩, ⟨[], 1, [], 1, true⟩]).rewards ∧
        batch.dones = (idx.map fun i =>
          ((((ReplayMemory.init 3 0).add_list
            [⟨[], 0, [], 0, false⟩, ⟨[], 1, [], 1, true⟩]).terminal i : ℚ))) ∧
        batch.states.length = 1 ∧ batch.actions.length = 1 ∧
        batch.next_states.length = 1 ∧ batch.rewards.length = 1 ∧
        batch.dones.length = 1 :=
  get_batch_spec _ id 1 (by decide)

/-- C4.  For every buffer state and every `batch_size` `b` with
`b ≥ filled`, `get_batch b` fails (the assertion raises an
`InsufficientSamplesError`) and never returns a batch. -/
theorem get_batch_insufficient (m : ReplayMemory) (rand : ℕ → ℕ) (b : ℕ)
    (h : m.filled ≤ b) :
    m.get_batch rand b = none := by
  rw [ReplayMemory.get_batch, if_neg (by omega)]

/-- C4 witness: a fresh buffer (`filled = 0`) rejects even a batch of
size 0. -/
theorem get_batch_insufficient_witness :
    (ReplayMemory.init 3 0).get_batch id 0 = none :=
  get_batch_insufficient _ id 0 (by decide)

/-!
### Pixel quantization round-trip (insert transform vs. batch rescaling)
-/

/-- One pixel through insertion (`* 255`, cast to `uint8`) and retrieval
(`/ 255.0`) differs from the original by at most the 8-bit quantization
step `1/255`. -/
theorem pixel_roundtrip (x : ℚ) (h0 : 0 ≤ x) (h1 : x ≤ 1) :
    |x - uint8_to_float (pixel_to_uint8 x)| ≤ 1 / 255 := by
  have h255 : (0 : ℚ) ≤ x * 255 := by positivity
  have hub : x * 255 ≤ 255 := by nlinarith
  have hfl : (0 : ℤ) ≤ ⌊x * 255⌋ := Int.floor_nonneg.mpr h255
  have hfu : ⌊x * 255⌋ ≤ 255 := by
    have h := Int.floor_le_floor hub
    simpa using h
  have hmod : (Int.toNat ⌊x * 255⌋) % 256 = Int.toNat ⌊x * 255⌋ :=
    Nat.mod_eq_of_lt (by omega)
  have hcast : ((Int.toNat ⌊x * 255⌋ : ℕ) : ℚ) = ((⌊x * 255⌋ : ℤ) : ℚ) := by
    exact_mod_cast Int.toNat_of_nonneg hfl
  have hle : ((⌊x * 255⌋ : ℤ) : ℚ) ≤ x * 255 := Int.floor_le _
  have hlt : x * 255 < ((⌊x * 255⌋ : ℤ) : ℚ) + 1 := Int.lt_floor_add_one _
  rw [uint8_to_float, pixel_to_uint8, hmod, hcast, abs_le]
  constructor
  · linarith
  · linarith

/-- C6.  For every state frame stack whose entries are in `[0,1]`, storing
it via `add_sample` (scale by 255, truncate to unsigned 8-bit) and
rescaling the stored bytes by `1/255` — exactly what `get_batch` does to
present the entry — yields values within `1/255` of the originals,
elementwise. -/
theorem state_roundtrip (m : ReplayMemory) (t : Transition)
    (hx : ∀ x ∈ t.state, 0 ≤ x ∧ x ≤ 1) :
    List.Forall₂ (fun a b => |a - b| ≤ 1 / 255)
      t.state (((m.add_sample t).states m.ptr).map uint8_to_float) := by
  have hst : (m.add_sample t).states m.ptr = t.state.map pixel_to_uint8 := by
    simp [ReplayMemory.add_sample, ReplayMemory.insert_transform]
  rw [hst, List.map_map, List.forall₂_map_right_iff, List.forall₂_same]
  intro x hxmem
  exact pixel_roundtrip x (hx x hxmem).1 (hx x hxmem).2

/-- C6 witness: a four-pixel frame stack with values `0, 1, 1/2, 1/3`. -/
theorem state_roundtrip_witness :
    List.Forall₂ (fun a b => |a - b| ≤ 1 / 255)
      ([0, 1, 1/2, 1/3] : List ℚ)
      ((((ReplayMemory.init 2 0).add_sample
          ⟨[0, 1, 1/2, 1/3], 0, [], 0, false⟩).states
            (ReplayMemory.init 2 0).ptr).map uint8_to_float) :=
  state_roundtrip (ReplayMemory.init 2 0) ⟨[0, 1, 1/2, 1/3], 0, [], 0, false⟩
    (by intro x hx; fin_cases hx <;> norm_num)

/-!
### Action storage in a `uint8` array
-/

/-- C10.  The `uint8` action array wraps: after `add_sample`, the stored
action is `a % 256` (so any action in `[0, 255]` round-trips exactly), and
`get_batch` gathers action entries unchanged (the `.long()` cast is exact
on bytes), so the value a batch returns for the entry is `a % 256`. -/
theorem action_uint8_wrap (m : ReplayMemory) (t : Transition) :
    (m.add_sample t).actions m.ptr = t.action % 256 ∧
    (t.action < 256 → (m.add_sample t).actions m.ptr = t.action) ∧
    (∀ (rand : ℕ → ℕ) (b : ℕ) (batch : Batch),
      (m.add_sample t).get_batch rand b = some batch →
      batch.actions =
        (sample_without_replacement rand
          (List.range (m.add_sample t).filled) b).map (m.add_sample t).actions) := by
  refine ⟨?_, ?_, ?_⟩
  · simp [ReplayMemory.add_sample, ReplayMemory.insert_transform]
  · intro h
    simp [ReplayMemory.add_sample, ReplayMemory.insert_transform, Nat.mod_eq_of_lt h]
  · intro rand b batch hb
    rw [ReplayMemory.get_batch] at hb
    by_cases hlt : b < (m.add_sample t).filled
    · rw [if_pos hlt] at hb
      cases Option.some.inj hb
      rfl
    · rw [if_neg hlt] at hb
      exact absurd hb (by simp)

/-- C10 witness: action 300 is stored as `300 % 256 = 44`; action 44 is
stored exactly. -/
theorem action_uint8_wrap_witness :
    ((ReplayMemory.init 2 0).add_sample ⟨[], 300, [], 0, false⟩).actions 0
        = 300 % 256 ∧
    ((ReplayMemory.init 2 0).add_sample ⟨[], 44, [], 0, false⟩).actions 0 = 44 :=
  ⟨(action_uint8_wrap (ReplayMemory.init 2 0) ⟨[], 300, [], 0, false⟩).1,
   (action_uint8_wrap (ReplayMemory.init 2 0) ⟨[], 44, [], 0, false⟩).2.1 (by decide)⟩

/-!
### Episode metric reporting (`Trainer.train_episode`)
-/

/-- Python float division: `a / b` raises `ZeroDivisionError` when
`b = 0`, modelled by `none`. -/
def pydiv (a b : ℚ) : Option ℚ :=
  if b = 0 then none else some (a / b)

/-- The metrics record a training episode returns. -/
structure EpisodeMetrics where
  loss : ℚ
  reward : ℚ
  deriving DecidableEq

/-- The reporting tail of `Trainer.train_episode`: the code computes
`avg_loss = 0.0 if len(losses) == 0 else sum(losses)/len(losses)` but then
returns `{"loss": sum(losses)/len(losses), "reward": total_reward}`,
performing the division unconditionally. -/
def train_episode_report (losses : List ℚ) (total_reward : ℚ) :
    Option EpisodeMetrics :=
  let avg_loss : ℚ :=
    if losses.length = 0 then 0 else losses.sum / (losses.length : ℚ)
  (pydiv losses.sum (losses.length : ℚ)).map fun l => ⟨l, total_reward⟩

/-- C2 (code bug).  On an episode with zero learning updates the losses
list is empty, and the returned `sum(losses)/len(losses)` is a division by
zero: `train_episode` raises instead of reporting the guarded
`avg_loss = 0` it computed and discarded. -/
theorem train_episode_no_updates_raises :
    train_episode_report [] 0 = none := by
  simp [train_episode_report, pydiv]

/-!
### Overwrite correctness of the ring buffer
-/

instance : Inhabited Transition :=
  ⟨⟨[], 0, [], 0, false⟩⟩

/-- The five parallel-array cells of one buffer slot. -/
def ReplayMemory.entry (m : ReplayMemory) (i : ℕ) :
    List ℕ × ℕ × List ℕ × ℚ × ℕ :=
  (m.states i, m.actions i, m.next_states i, m.rewards i, m.terminal i)

/-- What `add_sample` writes into a slot for a given transition. -/
def stored_transition (t : Transition) : List ℕ × ℕ × List ℕ × ℚ × ℕ :=
  (t.state.map pixel_to_uint8, t.action % 256, t.next_state.map pixel_to_uint8,
   t.reward, if t.done then 1 else 0)

theorem ReplayMemory.entry_add_sample (m : ReplayMemory) (t : Transition)
    (i : ℕ) :
    (m.add_sample t).entry i =
      if i = m.ptr then stored_transition t else m.entry i := by
  by_cases h : i = m.ptr <;>
    simp [ReplayMemory.entry, ReplayMemory.add_sample,
      ReplayMemory.insert_transform, stored_transition, h]

/-- Writing a segment that does not wrap: starting at write position `p`
with `p + ts.length ≤ mem_size`, the slots `[p, p + ts.length)` receive
the segment in order and all other slots are untouched. -/
theorem ReplayMemory.entry_add_list_seg (ts : List Transition) :
    ∀ (m : ReplayMemory) (p : ℕ), m.ptr = p → p + ts.length ≤ m.mem_size →
      ∀ i, (m.add_list ts).entry i =
        if p ≤ i ∧ i < p + ts.length
        then stored_transition (ts.getD (i - p) default)
        else m.entry i := by
  induction ts with
  | nil =>
    intro m p hp hle i
    rw [ReplayMemory.add_list_nil, if_neg (by simp only [List.length_nil]; omega)]
  | cons t ts ih =>
    intro m p hp hle i
    rw [ReplayMemory.add_list_cons]
    have hlen : (t :: ts).length = ts.length + 1 := List.length_cons t ts
    by_cases hts : ts = []
    · subst hts
      rw [ReplayMemory.add_list_nil, ReplayMemory.entry_add_sample]
      by_cases hip : i = p
      · subst hip
        rw [if_pos hp.symm, if_pos (by omega), Nat.sub_self, List.getD_cons_zero]
      · rw [if_neg (fun h => hip (h.trans hp)), if_neg (by simp at hlen ⊢; omega)]
    · have hpos : 0 < ts.length := List.length_pos.mpr hts
      have hp1 : p + 1 < m.mem_size := by rw [hlen] at hle; omega
      have hptr' : (m.add_sample t).ptr = p + 1 := by
        show (m.ptr + 1) % m.mem_size = p + 1
        rw [hp]
        exact Nat.mod_eq_of_lt hp1
      have hle' : p + 1 + ts.length ≤ (m.add_sample t).mem_size := by
        rw [ReplayMemory.mem_size_add_sample]
        rw [hlen] at hle
        omega
      rw [ih (m.add_sample t) (p + 1) hptr' hle' i]
      by_cases hip : i = p
      · subst hip
        rw [if_neg (by omega), ReplayMemory.entry_add_sample, if_pos hp.symm,
          if_pos (by rw [hlen]; omega), Nat.sub_self, List.getD_cons_zero]
      · by_cases hin : p + 1 ≤ i ∧ i < p + 1 + ts.length
        · rw [if_pos hin, if_pos (by rw [hlen]; omega)]
          have hidx : i - p = (i - (p + 1)) + 1 := by omega
          rw [hidx, List.getD_cons_succ]
        · rw [if_neg hin, ReplayMemory.entry_add_sample,
            if_neg (fun h => hip (h.trans hp)), if_neg (by rw [hlen]; omega)]

/-- The 15 marker transitions of the spec's scenario: transition `j`
carries the distinct marker `j` in its reward field. -/
def markers (n : ℕ) : List Transition :=
  (List.range n).map fun j =>
    { state := [], action := 0, next_state := [], reward := (j : ℚ), done := false }

/-- C5.  After inserting `M + k` transitions (`0 ≤ k < M`) into a fresh
buffer of capacity `M`, slot `i` holds the `(M+i)`-th inserted transition
for `i ∈ [0, k)` (the oldest `k` entries were overwritten) and still holds
the `i`-th inserted transition for `i ∈ [k, M)`; in particular with
`M = 10` and 15 inserts carrying markers `0..14`, `filled = 10`, `ptr = 5`
and the stored markers at slots `0..9` are `[10,11,12,13,14,5,6,7,8,9]`. -/
theorem overwrite_correctness :
    (∀ (M k stack_size : ℕ) (ts : List Transition), 0 < M → k < M →
      ts.length = M + k → ∀ i,
        (i < k →
          ((ReplayMemory.init M stack_size).add_list ts).entry i =
            stored_transition (ts.getD (M + i) default)) ∧
        (k ≤ i → i < M →
          ((ReplayMemory.init M stack_size).add_list ts).entry i =
            stored_transition (ts.getD i default))) ∧
    (((ReplayMemory.init 10 0).add_list (markers 15)).filled = 10 ∧
     ((ReplayMemory.init 10 0).add_list (markers 15)).ptr = 5 ∧
     ((List.range 10).map fun i =>
        ((ReplayMemory.init 10 0).add_list (markers 15)).rewards i)
       = [10, 11, 12, 13, 14, 5, 6, 7, 8, 9]) := by
  constructor
  · intro M k stack_size ts hM hk hlen i
    have hM_le : M ≤ ts.length := by omega
    have hsplit : ((ReplayMemory.init M stack_size).add_list ts) =
        (((ReplayMemory.init M stack_size).add_list (ts.take M)).add_list
          (ts.drop M)) := by
      conv_lhs => rw [← List.take_append_drop M ts]
      rw [ReplayMemory.add_list, List.foldl_append]
      rfl
    have htake_len : (ts.take M).length = M := by
      rw [List.length_take]
      omega
    have hdrop_len : (ts.drop M).length = k := by
      rw [List.length_drop]
      omega
    set m1 := ((ReplayMemory.init M stack_size).add_list (ts.take M)) with hm1
    have hm1_size : m1.mem_size = M := ReplayMemory.mem_size_add_list _ _
    have hm1_ptr : m1.ptr = 0 := by
      have h := ReplayMemory.ring_invariant_aux M hM (ts.take M)
        (ReplayMemory.init M stack_size) 0 rfl
        (by simp [ReplayMemory.init]) (by simp [ReplayMemory.init])
      rw [hm1, h.1, Nat.zero_add, htake_len, Nat.mod_self]
    have hseg1 : ∀ j, m1.entry j =
        if 0 ≤ j ∧ j < 0 + (ts.take M).length
        then stored_transition ((ts.take M).getD (j - 0) default)
        else (ReplayMemory.init M stack_size).entry j :=
      ReplayMemory.entry_add_list_seg (ts.take M)
        (ReplayMemory.init M stack_size) 0 rfl
        (by simp [ReplayMemory.init, htake_len])
    have hseg2 : ∀ j, (m1.add_list (ts.drop M)).entry j =
        if 0 ≤ j ∧ j < 0 + (ts.drop M).length
        then stored_transition ((ts.drop M).getD (j - 0) default)
        else m1.entry j :=
      ReplayMemory.entry_add_list_seg (ts.drop M) m1 0 hm1_ptr
        (by rw [hm1_size, hdrop_len]; omega)
    constructor
    · intro hik
      rw [hsplit, hseg2 i, if_pos (by omega)]
      have hMi : M + i < ts.length := by omega
      have hi_drop : i < (ts.drop M).length := by omega
      rw [Nat.sub_zero, List.getD_eq_getElem _ _ hi_drop,
        List.getElem_drop, List.getD_eq_getElem _ _ hMi]
    · intro hki hiM
      rw [hsplit, hseg2 i, if_neg (by omega), hseg1 i,
        if_pos (by rw [htake_len]; omega)]
      have hi_take : i < (ts.take M).length := by omega
      have hi_ts : i < ts.length := by omega
      rw [Nat.sub_zero, List.getD_eq_getElem _ _ hi_take,
        List.getElem_take, List.getD_eq_getElem _ _ hi_ts]
  · refine ⟨by decide, by decide, by decide⟩

/-- C5 witness: capacity 2, three inserts of markers `0,1,2`: slot 0 holds
the third transition and slot 1 still holds the second. -/
theorem overwrite_correctness_witness :
    ((ReplayMemory.init 2 0).add_list (markers 3)).entry 0 =
      stored_transition ((markers 3).getD (2 + 0) default) ∧
    ((ReplayMemory.init 2 0).add_list (markers 3)).entry 1 =
      stored_transition ((markers 3).getD 1 default) :=
  ⟨(overwrite_correctness.1 2 1 0 (markers 3) (by decide) (by decide)
      (by decide) 0).1 (by decide),
   (overwrite_correctness.1 2 1 0 (markers 3) (by decide) (by decide)
      (by decide) 1).2 (by decide) (by decide)⟩

/-!
### Trainer state: checkpointing, resumption and the best-checkpoint rule

The agent is an opaque collaborator: we model it as a value of an
arbitrary type `α`.  `torch.save`/`torch.load` are treated as faithful
whole-object persistence: saving produces the state record, loading
consumes it, and a missing file is `none`.
-/

/-- The trainer fields the claims touch.  `Trainer.__init__` sets
`best_return = 0` and `start_epoch = 1`. -/
structure Trainer (α : Type) where
  agent : α
  memory : ReplayMemory
  best_return : ℚ
  start_epoch : ℕ
  output_dir : String

/-- A freshly constructed trainer (no `resume`, no `load`):
`best_return = 0`, `start_epoch = 1`. -/
def Trainer.fresh {α : Type} (agent : α) (memory : ReplayMemory)
    (output_dir : String) : Trainer α :=
  { agent := agent, memory := memory, best_return := 0, start_epoch := 1,
    output_dir := output_dir }

/-- The resumability snapshot `{"epoch", "agent", "memory", "best_return"}`
written by `Trainer.save_state`. -/
structure SavedState (α : Type) where
  epoch : ℕ
  agent : α
  memory : ReplayMemory
  best_return : ℚ

/-- `Trainer.save_state`: persist epoch, agent, memory and best_return. -/
def Trainer.save_state {α : Type} (tr : Trainer α) (epoch : ℕ) : SavedState α :=
  { epoch := epoch, agent := tr.agent, memory := tr.memory,
    best_return := tr.best_return }

/-- `Trainer.load_state`: if the file exists, restore agent, memory and
best_return, set `start_epoch = epoch + 1` and redirect the output
directory; a missing file raises `FileNotFoundError` (`none`). -/
def Trainer.load_state {α : Type} (tr : Trainer α) (state_dir : String)
    (file : Option (SavedState α)) : Option (Trainer α) :=
  match file with
  | some st =>
      some { tr with
        agent := st.agent
        memory := st.memory
        best_return := st.best_return
        start_epoch := st.epoch + 1
        output_dir := state_dir }
  | none => none

/-- The epoch loop `for epoch in range(self.start_epoch,
self.config["train_epochs"]+1)`. -/
def train_epoch_range (start_epoch train_epochs : ℕ) : List ℕ :=
  List.range' start_epoch (train_epochs + 1 - start_epoch)

/-- C7.  Saving state at epoch `e` and loading the written artifact
reproduces an identical `(epoch, best_return)` pair and a `ReplayMemory`
with identical `filled`, `ptr` and sample contents, and sets
`start_epoch = e + 1`, so the epoch loop resumes at epoch `e + 1`. -/
theorem save_load_roundtrip {α : Type} (tr tr₂ : Trainer α) (e : ℕ)
    (dir : String) :
    ∃ tr' : Trainer α,
      Trainer.load_state tr₂ dir (some (tr.save_state e)) = some tr' ∧
      (tr.save_state e).epoch = e ∧
      tr'.best_return = tr.best_return ∧
      tr'.agent = tr.agent ∧
      tr'.memory = tr.memory ∧
      tr'.memory.filled = tr.memory.filled ∧
      tr'.memory.ptr = tr.memory.ptr ∧
      (∀ i, tr'.memory.entry i = tr.memory.entry i) ∧
      tr'.start_epoch = e + 1 ∧
      (∀ T, e + 1 ≤ T →
        (train_epoch_range tr'.start_epoch T).head? = some (e + 1)) := by
  refine ⟨_, rfl, rfl, rfl, rfl, rfl, rfl, rfl, fun i => rfl, rfl, ?_⟩
  intro T hT
  show (train_epoch_range (e + 1) T).head? = some (e + 1)
  rw [train_epoch_range, show T + 1 - (e + 1) = (T - (e + 1)) + 1 from by omega]
  rfl

/-- C7 witness: a concrete trainer saved at epoch 4 and reloaded. -/
theorem save_load_roundtrip_witness :
    ∃ tr' : Trainer ℕ,
      Trainer.load_state (Trainer.fresh 7 (ReplayMemory.init 2 0) "other") "out"
          (some ((Trainer.fresh 5 (ReplayMemory.init 3 0) "out").save_state 4))
        = some tr' ∧
      ((Trainer.fresh 5 (ReplayMemory.init 3 0) "out").save_state 4).epoch = 4 ∧
      tr'.best_return = (Trainer.fresh 5 (ReplayMemory.init 3 0) "out").best_return ∧
      tr'.agent = (Trainer.fresh 5 (ReplayMemory.init 3 0) "out").agent ∧
      tr'.memory = (Trainer.fresh 5 (ReplayMemory.init 3 0) "out").memory ∧
      tr'.memory.filled =
        (Trainer.fresh 5 (ReplayMemory.init 3 0) "out").memory.filled ∧
      tr'.memory.ptr = (Trainer.fresh 5 (ReplayMemory.init 3 0) "out").memory.ptr ∧
      (∀ i, tr'.memory.entry i =
        (Trainer.fresh 5 (ReplayMemory.init 3 0) "out").memory.entry i) ∧
      tr'.start_epoch = 4 + 1 ∧
      (∀ T, 4 + 1 ≤ T →
        (train_epoch_range tr'.start_epoch T).head? = some (4 + 1)) :=
  save_load_roundtrip (Trainer.fresh 5 (ReplayMemory.init 3 0) "out")
    (Trainer.fresh 7 (ReplayMemory.init 2 0) "other") 4 "out"

/-!
### The best-checkpoint rule of the epoch loop

Each evaluation pass compares the averaged reward against `best_return`:
`if avg_metrics["reward"] > self.best_return:` update `best_return` and
`save_checkpoint()`.
-/

/-- One evaluation pass: the updated `best_return` and whether the
best-performance checkpoint was written. -/
def eval_checkpoint_step (best_return reward : ℚ) : ℚ × Bool :=
  if best_return < reward then (reward, true) else (best_return, false)

/-- A sequence of evaluation passes with averaged rewards `rs`, threading
`best_return`: the final `best_return` and, per pass, whether the
best-performance checkpoint was written. -/
def run_eval_passes (best_return : ℚ) : List ℚ → ℚ × List Bool
  | [] => (best_return, [])
  | r :: rs =>
      let s := eval_checkpoint_step best_return r
      let rest := run_eval_passes s.1 rs
      (rest.1, s.2 :: rest.2)

theorem eval_checkpoint_step_fst (b r : ℚ) :
    (eval_checkpoint_step b r).1 = max b r := by
  rw [eval_checkpoint_step]
  split
  · exact (max_eq_right (le_of_lt (by assumption))).symm
  · exact (max_eq_left (le_of_not_lt (by assumption))).symm

theorem run_eval_passes_fst (rs : List ℚ) :
    ∀ b : ℚ, (run_eval_passes b rs).1 = rs.foldl max b := by
  induction rs with
  | nil => intro b; rfl
  | cons r rs ih =>
    intro b
    show (run_eval_passes (eval_checkpoint_step b r).1 rs).1 = _
    rw [ih, eval_checkpoint_step_fst, List.foldl_cons]

theorem run_eval_passes_flag (rs : List ℚ) :
    ∀ (b : ℚ) (i : ℕ), i < rs.length →
      ((run_eval_passes b rs).2.getD i false = true ↔
        (rs.take i).foldl max b < rs.getD i 0) := by
  induction rs with
  | nil => intro b i hi; simp at hi
  | cons r rs ih =>
    intro b i hi
    match i with
    | 0 =>
      show (eval_checkpoint_step b r).2 = true ↔ b < r
      rw [eval_checkpoint_step]
      split
      · simpa using (by assumption : b < r)
      · simpa using (by assumption : ¬b < r)
    | i + 1 =>
      show ((run_eval_passes (eval_checkpoint_step b r).1 rs).2.getD i false = true ↔ _)
      rw [ih _ i (by simpa using hi), eval_checkpoint_step_fst]
      rw [List.take_succ_cons, List.foldl_cons, List.getD_cons_succ]

theorem foldl_max_lt_iff (x : ℚ) (l : List ℚ) :
    ∀ b : ℚ, l.foldl max b < x ↔ b < x ∧ ∀ y ∈ l, y < x := by
  induction l with
  | nil => intro b; simp
  | cons y l ih =>
    intro b
    rw [List.foldl_cons, ih, max_lt_iff]
    constructor
    · rintro ⟨⟨hb, hy⟩, hl⟩
      exact ⟨hb, by simpa using ⟨hy, hl⟩⟩
    · rintro ⟨hb, hl⟩
      simp only [List.mem_cons] at hl
      exact ⟨⟨hb, hl y (Or.inl rfl)⟩, fun z hz => hl z (Or.inr hz)⟩

theorem le_foldl_max (l : List ℚ) : ∀ b : ℚ, b ≤ l.foldl max b := by
  induction l with
  | nil => intro b; exact le_refl b
  | cons y l ih =>
    intro b
    exact le_trans (le_max_left b y) (ih (max b y))

/-- `foldl max` over `take (i+1)` peels off the `i`-th element. -/
theorem foldl_max_take_succ (rs : List ℚ) (b : ℚ) (i : ℕ) (hi : i < rs.length) :
    (rs.take (i + 1)).foldl max b = max ((rs.take i).foldl max b) rs[i] := by
  rw [List.take_succ, List.getElem?_eq_getElem hi, Option.toList_some,
    List.foldl_append, List.foldl_cons, List.foldl_nil]

/-- C8 counterexample.  A fresh trainer enters the evaluation sequence
with `best_return = 0`.  With a single evaluation pass of averaged reward
`-1`: the reward strictly exceeds every earlier evaluation reward (there
are none), yet the code writes no best-performance checkpoint and leaves
`best_return` at `0` rather than updating it to `-1`. -/
theorem best_checkpoint_claim_counterexample :
    (∀ r ∈ ([(-1 : ℚ)].take 0), r < (-1 : ℚ)) ∧
    (run_eval_passes (Trainer.fresh (0 : ℕ) (ReplayMemory.init 1 0) "out").best_return
        [(-1 : ℚ)]).2.getD 0 false = false ∧
    (run_eval_passes (Trainer.fresh (0 : ℕ) (ReplayMemory.init 1 0) "out").best_return
        [(-1 : ℚ)]).1 = 0 := by
  refine ⟨by simp, ?_, ?_⟩ <;> decide

/-- C8 (amended).  Entering the evaluation sequence with `best_return`
`b₀`, the best-performance checkpoint is written exactly at those indices
`i` where `r_i` strictly exceeds both `b₀` and every earlier evaluation
reward; `best_return` is updated to `r_i` at exactly those indices (else
it carries over), and it is monotonically non-decreasing across the
sequence. -/
theorem best_checkpoint_rule (b₀ : ℚ) (rs : List ℚ) :
    (∀ i, i < rs.length →
      ((run_eval_passes b₀ rs).2.getD i false = true ↔
        (b₀ < rs.getD i 0 ∧ ∀ r ∈ rs.take i, r < rs.getD i 0))) ∧
    (run_eval_passes b₀ rs).1 = rs.foldl max b₀ ∧
    (∀ i, i < rs.length →
      ((run_eval_passes b₀ rs).2.getD i false = true →
        (run_eval_passes b₀ (rs.take (i + 1))).1 = rs.getD i 0) ∧
      ((run_eval_passes b₀ rs).2.getD i false = false →
        (run_eval_passes b₀ (rs.take (i + 1))).1 =
          (run_eval_passes b₀ (rs.take i)).1)) ∧
    (∀ i, (run_eval_passes b₀ (rs.take i)).1 ≤
      (run_eval_passes b₀ (rs.take (i + 1))).1) := by
  refine ⟨?_, run_eval_passes_fst rs b₀, ?_, ?_⟩
  · intro i hi
    rw [run_eval_passes_flag rs b₀ i hi, foldl_max_lt_iff]
  · intro i hi
    have hgetD : rs.getD i 0 = rs[i] := List.getD_eq_getElem rs 0 hi
    constructor
    · intro hflag
      have hlt : (rs.take i).foldl max b₀ < rs.getD i 0 :=
        (run_eval_passes_flag rs b₀ i hi).mp hflag
      rw [run_eval_passes_fst, foldl_max_take_succ rs b₀ i hi, hgetD]
      rw [hgetD] at hlt
      exact max_eq_right (le_of_lt hlt)
    · intro hflag
      have hnlt : ¬((rs.take i).foldl max b₀ < rs.getD i 0) := by
        intro hlt
        have := (run_eval_passes_flag rs b₀ i hi).mpr hlt
        rw [hflag] at this
        exact Bool.false_ne_true this
      rw [run_eval_passes_fst, run_eval_passes_fst,
        foldl_max_take_succ rs b₀ i hi]
      rw [hgetD] at hnlt
      exact max_eq_left (le_of_not_lt hnlt)
  · intro i
    by_cases hi : i < rs.length
    · rw [run_eval_passes_fst, run_eval_passes_fst, foldl_max_take_succ rs b₀ i hi]
      exact le_max_left _ _
    · rw [List.take_of_length_le (by omega), List.take_of_length_le (by omega)]

/-- C8 witness: one pass with reward 2 from `best_return = 0`: the
checkpoint fires iff `2` beats `0` and every earlier reward. -/
theorem best_checkpoint_rule_witness :
    (run_eval_passes 0 [(2 : ℚ)]).2.getD 0 false = true ↔
      ((0 : ℚ) < 2 ∧ ∀ r ∈ ([(2 : ℚ)].take 0), r < 2) :=
  (best_checkpoint_rule 0 [2]).1 0 (by decide)

/-- C9.  A freshly constructed trainer has `best_return = 0`, so an
evaluation pass whose averaged reward is `≤ 0` never writes a
best-performance checkpoint and never updates `best_return` — even when
it is the first evaluation ever performed. -/
theorem fresh_trainer_nonpos_reward_no_update {α : Type} (a : α)
    (mem : ReplayMemory) (dir : String) (rs : List ℚ) (i : ℕ)
    (hi : i < rs.length) (hr : rs.getD i 0 ≤ 0) :
    (Trainer.fresh a mem dir).best_return = 0 ∧
    (run_eval_passes (Trainer.fresh a mem dir).best_return rs).2.getD i false
      = false ∧
    (run_eval_passes (Trainer.fresh a mem dir).best_return
        (rs.take (i + 1))).1 =
      (run_eval_passes (Trainer.fresh a mem dir).best_return (rs.take i)).1 := by
  refine ⟨rfl, ?_, ?_⟩
  · show (run_eval_passes 0 rs).2.getD i false = false
    have hmax : (0 : ℚ) ≤ (rs.take i).foldl max 0 := le_foldl_max _ 0
    have hnlt : ¬((rs.take i).foldl max 0 < rs.getD i 0) := by
      intro hlt
      linarith
    cases hflag : (run_eval_passes 0 rs).2.getD i false
    · rfl
    · exact absurd ((run_eval_passes_flag rs 0 i hi).mp hflag) hnlt
  · show (run_eval_passes 0 (rs.take (i + 1))).1 =
      (run_eval_passes 0 (rs.take i)).1
    rw [run_eval_passes_fst, run_eval_passes_fst, foldl_max_take_succ rs 0 i hi]
    apply max_eq_left
    have h1 : (0 : ℚ) ≤ (rs.take i).foldl max 0 := le_foldl_max _ 0
    have h2 : rs[i] ≤ 0 := by
      rwa [List.getD_eq_getElem rs 0 hi] at hr
    linarith

/-- C9 witness: rewards `[-1, 2]`, first pass reward `-1 ≤ 0`: no
checkpoint, `best_return` unchanged. -/
theorem fresh_trainer_nonpos_reward_no_update_witness :
    (Trainer.fresh (0 : ℕ) (ReplayMemory.init 1 0) "out").best_return = 0 ∧
    (run_eval_passes
        (Trainer.fresh (0 : ℕ) (ReplayMemory.init 1 0) "out").best_return
        [(-1 : ℚ), 2]).2.getD 0 false = false ∧
    (run_eval_passes
        (Trainer.fresh (0 : ℕ) (ReplayMemory.init 1 0) "out").best_return
        ([(-1 : ℚ), 2].take (0 + 1))).1 =
      (run_eval_passes
        (Trainer.fresh (0 : ℕ) (ReplayMemory.init 1 0) "out").best_return
        ([(-1 : ℚ), 2].take 0)).1 :=
  fresh_trainer_nonpos_reward_no_update 0 (ReplayMemory.init 1 0) "out"
    [(-1 : ℚ), 2] 0 (by decide) (by decide)
